import Mathlib

/-
Shallow embedding of the contour terminal selection core:
  - src/src/terminal/Selector.h / Selector.cpp  (selection state machine)
  - src/src/terminal/cell/CompactCell.h         (compact grid cell)

Coordinates mirror `Coordinate` (LineOffset, ColumnOffset: both plain ints,
ordered lexicographically, line first).  The grid is visible to the selector
only through the two captured accessors `getCellAt_` and `wrapped_`, plus the
word-delimiter set and the two dimension scalars; those five values form `Env`
below, corresponding one-to-one to the private fields of `class Selector`.
The cell type observed by the selector (`SCell`) carries exactly the three
observations `Selector` makes on a cell: `codepoint(0)`, `width()`, `empty()`.

Loops in the C++ (the `for(;;)` scans in extendSelectionBackward/Forward, the
`while` walks over wrapped lines, and the `while` in stretchedColumn) are
embedded as fuel recursion; every call site passes a fuel that dominates the
loop's iteration bound, so the embedded function agrees with the source loop.
-/

namespace terminal

/-- Coordinate = (LineOffset, ColumnOffset); both are ints in the source
(negative lines address scrollback). -/
structure Coord where
  line : Int
  column : Int
deriving DecidableEq, Repr

/-- Lexicographic strict order on coordinates, line first (operator< on
`Coordinate`). -/
def coordLt (a b : Coord) : Prop :=
  a.line < b.line ∨ (a.line = b.line ∧ a.column < b.column)

/-- Lexicographic order on coordinates (operator<= on `Coordinate`). -/
def coordLe (a b : Coord) : Prop :=
  a.line < b.line ∨ (a.line = b.line ∧ a.column ≤ b.column)

instance (a b : Coord) : Decidable (coordLt a b) := by
  unfold coordLt; infer_instance

instance (a b : Coord) : Decidable (coordLe a b) := by
  unfold coordLe; infer_instance

/-- The cell observations `Selector` makes through its `GetCellAt` accessor:
`codepoint(0)` (primary codepoint), `width()`, `empty()`. -/
structure SCell where
  cp : Nat
  width : Nat
  empty : Bool
deriving DecidableEq, Repr

/-- The selector's captured environment: the fields `getCellAt_`, `wrapped_`,
`wordDelimiters_`, `totalRowCount_`, `columnCount_` of `class Selector`.
`getCellAt` returns `none` where the grid has no cell (the collaborator
contract allows a partial accessor). -/
structure Env where
  getCellAt : Coord → Option SCell
  wrapped : Int → Bool
  wordDelimiters : List Nat
  totalRowCount : Int
  columnCount : Int

/-- Selector::Mode. -/
inductive Mode where
  | Linear
  | LinearWordWise
  | FullLine
  | Rectangular
deriving DecidableEq, Repr

/-- Selector::State. -/
inductive State where
  | Waiting
  | InProgress
  | Complete
deriving DecidableEq, Repr

/-- The mutable coordinate state of a Selector: `mode_`, `state_`, `start_`,
`from_`, `to_` (the environment lives in `Env`). -/
structure Selector where
  mode_ : Mode
  state_ : State
  start_ : Coord
  from_ : Coord
  to_ : Coord
deriving DecidableEq, Repr

/-- Selector::Range: one per-line selected column range, inclusive columns. -/
structure Range where
  line : Int
  fromColumn : Int
  toColumn : Int
deriving DecidableEq, Repr

/-- Selector::swapDirection: swap from_ and to_. -/
def swapDirection (s : Selector) : Selector :=
  { s with from_ := s.to_, to_ := s.from_ }

/-- The while loop of Selector::stretchedColumn: advance over empty cells up
to columnCount, then include a trailing wide-cell head's tail. -/
def stretchLoop (env : Env) : Nat → Int → Int → Int
  | 0, _, col => col
  | fuel + 1, line, col =>
    if col < env.columnCount then
      match env.getCellAt ⟨line, col⟩ with
      | some cell =>
        if cell.empty then stretchLoop env fuel line (col + 1)
        else if 1 < cell.width then col + ((cell.width : Int) - 1)
        else col
      | none => col
    else col

/-- Selector::stretchedColumn.  The first branch handles a wide cell at the
coordinate itself; otherwise the while loop runs.  Fuel dominates the loop's
at most (columnCount - col) iterations. -/
def stretchedColumn (env : Env) (c : Coord) : Coord :=
  match env.getCellAt c with
  | some cell =>
    if 1 < cell.width then ⟨c.line, c.column + ((cell.width : Int) - 1)⟩
    else ⟨c.line, stretchLoop env ((env.columnCount - c.column).toNat + 1) c.line c.column⟩
  | none => ⟨c.line, stretchLoop env ((env.columnCount - c.column).toNat + 1) c.line c.column⟩

/-- The isWordDelimiterAt lambda shared by both word scans: absent cell, empty
cell, or primary codepoint in the delimiter set. -/
def isWordDelimiterAt (env : Env) (c : Coord) : Bool :=
  match env.getCellAt c with
  | none => true
  | some cell => cell.empty || env.wordDelimiters.contains cell.cp

/-- One step of the backward scan in Selector::extendSelectionBackward:
decrement the column while above 1, otherwise move to the previous line at
column = columnCount when the line offset is positive (note that the source's
`wrapIntoPreviousLine` conjunct is subsumed by `*current.line > 0` in the
disjunction, so the wrapped flag never decides the branch), else stop. -/
def backStep (env : Env) (c : Coord) : Option Coord :=
  if 1 < c.column then some ⟨c.line, c.column - 1⟩
  else if 0 < c.line
      ∨ ((c.column == 1) && (decide (0 < c.line)) && env.wrapped c.line) = true then
    some ⟨c.line - 1, env.columnCount⟩
  else none

/-- The for(;;) loop of Selector::extendSelectionBackward: walk backward until
the walk cannot step or steps onto a word delimiter; `last` is the last
non-delimiter position reached. -/
def backGo (env : Env) : Nat → Coord → Coord → Coord
  | 0, _, last => last
  | fuel + 1, current, last =>
    match backStep env current with
    | none => last
    | some c => if isWordDelimiterAt env c then last else backGo env fuel c c

/-- Fuel bound for the backward word scan starting at `c`. -/
def backFuel (env : Env) (c : Coord) : Nat :=
  (c.line.toNat + 1) * (env.columnCount.toNat + 2) + c.column.toNat + 2

/-- Selector::extendSelectionBackward. -/
def extendSelectionBackward (env : Env) (s : Selector) : Selector :=
  let last := backGo env (backFuel env s.to_) s.to_ s.to_
  if coordLt s.to_ s.from_ then { s with from_ := s.to_, to_ := last }
  else { s with to_ := last }

/-- The wrapped-line crossing at the top of the extendSelectionForward loop
body: when standing at column == columnCount before a wrapped successor line,
enter it at column 0 and immediately stretch from column 0 + 1. -/
def fwdCross (env : Env) (c : Coord) : Coord :=
  if c.column = env.columnCount ∧ c.line + 1 < env.totalRowCount
      ∧ env.wrapped (c.line + 1) = true then
    stretchedColumn env ⟨c.line + 1, 0 + 1⟩
  else c

/-- The rest of the extendSelectionForward loop body: a stretched column step
while before columnCount, else a plain crossing to the next line at column 0
while before totalRowCount, else stop (`none`). -/
def fwdStep (env : Env) (c : Coord) : Option Coord :=
  if (fwdCross env c).column < env.columnCount then
    some (stretchedColumn env ⟨(fwdCross env c).line, (fwdCross env c).column + 1⟩)
  else if (fwdCross env c).line < env.totalRowCount then
    some ⟨(fwdCross env c).line + 1, 0⟩
  else none

/-- The for(;;) loop of Selector::extendSelectionForward: step forward until
the walk cannot step or steps onto a word delimiter; `last` is the last
non-delimiter position reached. -/
def fwdGo (env : Env) : Nat → Coord → Coord → Coord
  | 0, _, last => last
  | fuel + 1, current, last =>
    match fwdStep env current with
    | none => last
    | some c2 => if isWordDelimiterAt env c2 then last else fwdGo env fuel c2 c2

/-- Fuel bound for the forward word scan starting at `c`. -/
def fwdFuel (env : Env) (c : Coord) : Nat :=
  ((env.totalRowCount - c.line).toNat + 2) * (env.columnCount.toNat + 2)
    + c.column.toNat + 2

/-- Selector::extendSelectionForward. -/
def extendSelectionForward (env : Env) (s : Selector) : Selector :=
  let last := fwdGo env (fwdFuel env s.to_) s.to_ s.to_
  { s with to_ := stretchedColumn env last }

/-- The constructor's backward wrap walk and extend's FullLine backward walk:
`while (from_.line > 0 && wrapped_(from_.line)) from_.line--`. -/
def bwdLineGo (env : Env) : Nat → Int → Int
  | 0, l => l
  | fuel + 1, l =>
    if 0 < l ∧ env.wrapped l = true then bwdLineGo env fuel (l - 1) else l

/-- Extend's FullLine forward wrap walk:
`while (to_.line + 1 < totalRowCount && wrapped_(to_.line + 1)) to_.line++`. -/
def extFwdGo (env : Env) : Nat → Int → Int
  | 0, l => l
  | fuel + 1, l =>
    if l + 1 < env.totalRowCount ∧ env.wrapped (l + 1) = true then
      extFwdGo env fuel (l + 1)
    else l

/-- The constructor's forward wrap walk, whose guard tests
`*to_.line < *totalRowCount` (without the +1 the extend variant has):
`while (to_.line < totalRowCount && wrapped_(to_.line + 1)) to_.line++`. -/
def ctorFwdGo (env : Env) : Nat → Int → Int
  | 0, l => l
  | fuel + 1, l =>
    if l < env.totalRowCount ∧ env.wrapped (l + 1) = true then
      ctorFwdGo env fuel (l + 1)
    else l

/-- Selector::extend(line, column), without the state precondition assert
(see `extendChecked`).  The column is clamped to [0, columnCount], the state
becomes InProgress, and the update dispatches on the mode; LinearWordWise and
Rectangular share the word-wise branch (case fallthrough in the source). -/
def extend (env : Env) (s : Selector) (line colArg : Int) : Selector :=
  let column := max 0 (min colArg env.columnCount)
  let coord : Coord := ⟨line, column⟩
  let s := { s with state_ := State.InProgress }
  match s.mode_ with
  | Mode.FullLine =>
    if coordLt s.start_ coord then
      { s with to_ := ⟨extFwdGo env ((env.totalRowCount - coord.line).toNat + 1) coord.line,
                       coord.column⟩ }
    else if coordLt coord s.start_ then
      { s with from_ := ⟨bwdLineGo env (coord.line.toNat + 1) coord.line, coord.column⟩ }
    else s
  | Mode.Linear => { s with to_ := stretchedColumn env coord }
  | Mode.LinearWordWise | Mode.Rectangular =>
    if coordLt s.start_ coord then
      extendSelectionForward env { s with to_ := coord }
    else
      let s1 := extendSelectionBackward env { s with to_ := coord }
      let s2 := swapDirection s1
      extendSelectionForward env { s2 with to_ := s2.start_ }

/-- Selector::extend with its precondition
`assert(state_ != State::Complete)`: a call on a Complete selector aborts
before any mutation (`none`); otherwise the update runs. -/
def extendChecked (env : Env) (s : Selector) (line colArg : Int) : Option Selector :=
  if s.state_ = State.Complete then none else some (extend env s line colArg)

/-- The selector as observed after a (possibly aborted) extend call: an
aborted call leaves the object untouched. -/
def extendOp (env : Env) (s : Selector) (line colArg : Int) : Selector :=
  (extendChecked env s line colArg).getD s

/-- The Selector constructor: from_ = to_ = start_ = anchor, state Waiting;
then the FullLine mode runs two extends around a swapDirection followed by
the two wrap walks, and LinearWordWise runs a backward scan, a swap and a
forward scan. -/
def constructSel (env : Env) (mode : Mode) (anchor : Coord) : Selector :=
  let s0 : Selector := ⟨mode, State.Waiting, anchor, anchor, anchor⟩
  match mode with
  | Mode.FullLine =>
    let s1 := extend env s0 s0.from_.line 0
    let s2 := swapDirection s1
    let s3 := extend env s2 s2.from_.line env.columnCount
    { s3 with
      from_ := ⟨bwdLineGo env (s3.from_.line.toNat + 1) s3.from_.line, s3.from_.column⟩,
      to_ := ⟨ctorFwdGo env ((env.totalRowCount - s3.to_.line).toNat + 1) s3.to_.line,
              s3.to_.column⟩ }
  | Mode.LinearWordWise =>
    let s1 := { s0 with state_ := State.InProgress }
    let s2 := extendSelectionBackward env s1
    let s3 := swapDirection s2
    extendSelectionForward env s3
  | _ => s0

/-- Selector::stop: InProgress becomes Complete, anything else is a no-op. -/
def stopSel (s : Selector) : Selector :=
  if s.state_ = State.InProgress then { s with state_ := State.Complete } else s

/-- The normalisation done by prepare(): order (from_, to_) lexicographically. -/
def sortedPair (s : Selector) : Coord × Coord :=
  if coordLt s.to_ s.from_ then (s.to_, s.from_) else (s.from_, s.to_)

/-- The body of Selector::linear() over the normalised (from, to) pair
returned by prepare(): first line partial to the row end, interior lines full
width, last line partial from column 0; a single covered line trims both
ends.  (prepare always yields from.line <= to.line, so the range count is at
least 1.) -/
def linearRangesP (env : Env) (f t : Coord) : List Range :=
  let n := (t.line - f.line + 1).toNat
  if n = 1 then [⟨f.line, f.column, t.column⟩]
  else if n = 2 then
    [⟨f.line, f.column, env.columnCount - 1⟩, ⟨t.line, 0, t.column⟩]
  else
    ⟨f.line, f.column, env.columnCount - 1⟩ ::
      ((List.range (n - 2)).map fun (i : Nat) =>
        ⟨f.line + (i : Int) + 1, 0, env.columnCount - 1⟩) ++
      [⟨t.line, 0, t.column⟩]

/-- Selector::linear(). -/
def linearRanges (env : Env) (s : Selector) : List Range :=
  linearRangesP env (sortedPair s).1 (sortedPair s).2

/-- The body of Selector::lines() over the normalised pair: every covered
line spans columns 1 .. columnCount. -/
def linesRangesP (env : Env) (f t : Coord) : List Range :=
  (List.range (t.line - f.line + 1).toNat).map fun (i : Nat) =>
    ⟨f.line + (i : Int), 1, env.columnCount⟩

/-- Selector::lines(). -/
def linesRanges (env : Env) (s : Selector) : List Range :=
  linesRangesP env (sortedPair s).1 (sortedPair s).2

/-- The body of Selector::rectangular() over the normalised pair: every
covered line reuses the (from.column, to.column) pair. -/
def rectRangesP (f t : Coord) : List Range :=
  (List.range (t.line - f.line + 1).toNat).map fun (i : Nat) =>
    ⟨f.line + (i : Int), f.column, t.column⟩

/-- Selector::rectangular(). -/
def rectRanges (s : Selector) : List Range :=
  rectRangesP (sortedPair s).1 (sortedPair s).2

/-- Selector::selection(): dispatch on the mode. -/
def selectionFn (env : Env) (s : Selector) : List Range :=
  match s.mode_ with
  | Mode.FullLine => linesRanges env s
  | Mode.Linear | Mode.LinearWordWise => linearRanges env s
  | Mode.Rectangular => rectRanges s

/-- crispy::ascending(a, x, b): a <= x && x <= b (on ints). -/
def ascendingI (a x b : Int) : Prop := a ≤ x ∧ x ≤ b

instance (a x b : Int) : Decidable (ascendingI a x b) := by
  unfold ascendingI; infer_instance

/-- crispy::ascending on coordinates. -/
def ascendingC (a x b : Coord) : Prop := coordLe a x ∧ coordLe x b

instance (a x b : Coord) : Decidable (ascendingC a x b) := by
  unfold ascendingC; infer_instance

/-- Selector::contains: FullLine tests the line interval in either direction,
Linear and LinearWordWise test the lexicographic coordinate interval in either
direction, Rectangular tests line and column intervals in ONE direction only
(from_ low, to_ high). -/
def containsSel (s : Selector) (c : Coord) : Bool :=
  match s.mode_ with
  | Mode.FullLine =>
    decide (ascendingI s.from_.line c.line s.to_.line)
      || decide (ascendingI s.to_.line c.line s.from_.line)
  | Mode.Linear | Mode.LinearWordWise =>
    decide (ascendingC s.from_ c s.to_) || decide (ascendingC s.to_ c s.from_)
  | Mode.Rectangular =>
    decide (ascendingI s.from_.line c.line s.to_.line)
      && decide (ascendingI s.from_.column c.column s.to_.column)

/-- Selector::render: for each range, each column fromColumn..toColumn, emit
the coordinate together with the cell when the accessor yields one. -/
def renderPairs (env : Env) (s : Selector) : List (Coord × SCell) :=
  (selectionFn env s).flatMap fun r =>
    (List.range (r.toColumn - r.fromColumn + 1).toNat).filterMap fun i =>
      (env.getCellAt ⟨r.line, r.fromColumn + (i : Int)⟩).map
        fun cell => (⟨r.line, r.fromColumn + (i : Int)⟩, cell)

/-- The TextSelection accumulator of Selector_test.cpp: a newline (codepoint
10) whenever the column decreases between successive cells, then the cell's
text (its primary codepoint; an empty cell renders no codepoint). -/
def renderText (env : Env) (s : Selector) : List Nat :=
  ((renderPairs env s).foldl
    (fun (acc : List Nat × Int) pc =>
      (acc.1 ++ (if pc.1.column < acc.2 then [10] else [])
            ++ (if pc.2.cp = 0 then [] else [pc.2.cp]),
       pc.1.column))
    ([], 0)).1

/-- Codepoints of a string, for writing expected rendered text. -/
def strCodes (s : String) : List Nat := s.toList.map Char.toNat

/-- Selector states reachable through the public API: construction, extend
calls respecting the `state_ != Complete` precondition, and stop. -/
inductive Reached (env : Env) : Selector → Prop
  | ctor (mode : Mode) (anchor : Coord) : Reached env (constructSel env mode anchor)
  | extendStep (s : Selector) (line colArg : Int) :
      Reached env s → s.state_ ≠ State.Complete →
      Reached env (extend env s line colArg)
  | stopStep (s : Selector) : Reached env s → Reached env (stopSel s)

/-! ### Concrete grids used as test inputs -/

/-- The 3 x 11 grid of Selector_test.cpp and of the spec's end-to-end
scenarios. -/
def s4rows : List (List Nat) :=
  [strCodes "12345,67890", strCodes "ab,cdefg,hi", strCodes "12345,67890"]

/-- Environment for scenario S4: 3 rows, 11 columns, no wrapped lines, word
delimiter set containing only the comma (codepoint 44). -/
def s4env : Env :=
  { getCellAt := fun p =>
      if 0 ≤ p.line ∧ p.line < 3 ∧ 0 ≤ p.column ∧ p.column < 11 then
        some { cp := (s4rows.getD p.line.toNat []).getD p.column.toNat 0,
               width := 1, empty := false }
      else none,
    wrapped := fun _ => false,
    wordDelimiters := [44],
    totalRowCount := 3,
    columnCount := 11 }

/-- The scenario S4 selector: Rectangular anchored at (0,2), extended to
(2,5), stopped. -/
def s4sel : Selector :=
  stopSel (extend s4env (constructSel s4env Mode.Rectangular ⟨0, 2⟩) 2 5)

/-- A 3 x 7 grid of letters with a single comma at (2,3), no wrapped lines. -/
def c6env : Env :=
  { getCellAt := fun p =>
      if 0 ≤ p.line ∧ p.line < 3 ∧ 0 ≤ p.column ∧ p.column < 7 then
        (if p.line = 2 ∧ p.column = 3 then some ⟨44, 1, false⟩
         else some ⟨97, 1, false⟩)
      else none,
    wrapped := fun _ => false,
    wordDelimiters := [44],
    totalRowCount := 3,
    columnCount := 7 }

/-- A Rectangular selector on `c6env` whose normalised endpoints hold
from_ = (0,5) and to_ = (2,2): from_.column exceeds to_.column. -/
def c6sel : Selector := extend c6env (constructSel c6env Mode.Rectangular ⟨0, 5⟩) 2 2

/-- A 2 x 3 grid whose first row is entirely empty and whose second row holds
letters; no wrapped lines. -/
def c9env : Env :=
  { getCellAt := fun p =>
      if 0 ≤ p.line ∧ p.line < 2 ∧ 0 ≤ p.column ∧ p.column < 3 then
        (if p.line = 1 then some ⟨98 + p.column.toNat, 1, false⟩
         else some ⟨0, 1, true⟩)
      else none,
    wrapped := fun _ => false,
    wordDelimiters := [],
    totalRowCount := 2,
    columnCount := 3 }

/-- Linear selection on `c9env` anchored at (0,1) extended to (1,0). -/
def c9selA : Selector := stopSel (extend c9env (constructSel c9env Mode.Linear ⟨0, 1⟩) 1 0)

/-- Linear selection on `c9env` anchored at (1,0) extended to (0,1). -/
def c9selB : Selector := stopSel (extend c9env (constructSel c9env Mode.Linear ⟨1, 0⟩) 0 1)

/-- A cell-free environment with 3 rows and 5 columns in which lines 2 and 3
carry the wrapped flag; FullLine construction never reads cells. -/
def c5env : Env :=
  { getCellAt := fun _ => none,
    wrapped := fun l => decide (l = 2) || decide (l = 3),
    wordDelimiters := [],
    totalRowCount := 3,
    columnCount := 5 }

/-- A 1 x 2 grid of empty cells, no wrapped lines. -/
def env1 : Env :=
  { getCellAt := fun p =>
      if 0 ≤ p.line ∧ p.line < 1 ∧ 0 ≤ p.column ∧ p.column < 2 then
        some ⟨0, 1, true⟩
      else none,
    wrapped := fun _ => false,
    wordDelimiters := [],
    totalRowCount := 1,
    columnCount := 2 }

/-- A 2 x 4 grid of letters in which no line is wrapped. -/
def c2env : Env :=
  { getCellAt := fun _ => some ⟨97, 1, false⟩,
    wrapped := fun _ => false,
    wordDelimiters := [],
    totalRowCount := 2,
    columnCount := 4 }

/-! ### CompactCell (src/src/terminal/cell/CompactCell.h)

Only the fields the verified claims observe are modelled: the primary
codepoint and, inside the lazily allocated `CellExtra`, the continuation
codepoints, the stored width and the presence of an image fragment.  Colors,
flags, underline color and the hyperlink id live in the same structs in the
source but are never read by codepoint/codepointCount/appendCharacter; their
only observable effect here is whether the extra block is allocated, which the
operations below receive as explicit booleans (`attrs non-default`). -/

/-- CompactCell::MaxCodepoints. -/
def MaxCodepoints : Nat := 7

/-- CellExtra: the lazily allocated rare-attributes block. -/
structure CellExtra where
  codepoints : List Nat
  width : Nat
  imageFragment : Bool
deriving DecidableEq, Repr

/-- A default-constructed CellExtra: no continuation, width 1, no image. -/
def defaultExtra : CellExtra := ⟨[], 1, false⟩

/-- CompactCell: primary codepoint inline, everything rare behind the
optional extra block. -/
structure CompactCell where
  codepoint_ : Nat
  extra_ : Option CellExtra
deriving DecidableEq, Repr

/-- CompactCell(): zero codepoint; setWidth(1) does not allocate the extra. -/
def initCell : CompactCell := ⟨0, none⟩

/-- CompactCell::extra(): return the extra block, allocating a default one
if absent. -/
def ensureExtra (c : CompactCell) : CompactCell :=
  { c with extra_ := some (c.extra_.getD defaultExtra) }

/-- CompactCell::width(): 1 without extras, else the stored width. -/
def cellWidth (c : CompactCell) : Nat :=
  match c.extra_ with
  | none => 1
  | some e => e.width

/-- CompactCell::setWidth: stores into the extra block when the width is
above 1 or an extra block already exists. -/
def setWidth (c : CompactCell) (w : Nat) : CompactCell :=
  if 1 < w ∨ c.extra_.isSome = true then
    { c with extra_ := some { c.extra_.getD defaultExtra with width := w } }
  else c

/-- CompactCell::codepointCount: 0 for a zero primary, else 1 plus the
continuation length. -/
def codepointCount (c : CompactCell) : Nat :=
  if c.codepoint_ ≠ 0 then
    match c.extra_ with
    | none => 1
    | some e => 1 + e.codepoints.length
  else 0

/-- CompactCell::codepoint(i): the primary for i = 0; with no extra block the
source returns 0 for any other index; with an extra block it indexes
`codepoints.at(i - 1)`, which for an out-of-range index raises (and, the
method being noexcept, aborts) in debug builds and is undefined in release
builds — modelled as `none`. -/
def codepoint (c : CompactCell) (i : Nat) : Option Nat :=
  if i = 0 then some c.codepoint_
  else
    match c.extra_ with
    | none => some 0
    | some e =>
      if h : i - 1 < e.codepoints.length then some (e.codepoints.get ⟨i - 1, h⟩)
      else none

/-- The width helpers CompactCell delegates to: CellUtil::computeWidthChange
(repository code outside src/) and unicode::width (external library).  The
claims hold for every choice of these functions, so they are taken as
parameters. -/
structure WidthFns where
  computeWidthChange : CompactCell → Nat → Int
  uwidth : Nat → Int

/-- The cell as it stands right after appendCharacter's push_back: the extra
block allocated and the codepoint appended to the continuation.
(computeWidthChange is called on *this in this state.) -/
def appendPushed (c : CompactCell) (cp : Nat) : CompactCell :=
  { ensureExtra c with extra_ := some { (ensureExtra c).extra_.getD defaultExtra with
      codepoints := ((ensureExtra c).extra_.getD defaultExtra).codepoints ++ [cp] } }

/-- CompactCell::appendCharacter: allocate the extra block, push the
codepoint while the continuation holds fewer than MaxCodepoints - 1 entries,
and return the non-zero width change if any, else 0.  The uint8_t cast of
width() + diff is modelled with emod 256.  (The source's locals ext and diff
are inlined here.) -/
def appendCharacter (f : WidthFns) (c : CompactCell) (cp : Nat) : CompactCell × Int :=
  if ((ensureExtra c).extra_.getD defaultExtra).codepoints.length < MaxCodepoints - 1 then
    if f.computeWidthChange (appendPushed c cp) cp ≠ 0 then
      (setWidth (appendPushed c cp)
          (((cellWidth (appendPushed c cp) : Int)
            + f.computeWidthChange (appendPushed c cp) cp).emod 256).toNat,
        f.computeWidthChange (appendPushed c cp) cp)
    else (appendPushed c cp, 0)
  else (ensureExtra c, 0)

/-- The text-replacing part of CompactCell::setCharacter: replace the
primary, clear continuation and image. -/
def setCharCleared (c : CompactCell) (cp : Nat) : CompactCell :=
  { c with codepoint_ := cp,
           extra_ := c.extra_.map fun e =>
             { e with codepoints := [], imageFragment := false } }

/-- CompactCell::setCharacter: replace the primary, clear continuation and
image, then set the width from unicode::width (at least 1) for a non-zero
codepoint and 1 otherwise. -/
def setCharacter (f : WidthFns) (c : CompactCell) (cp : Nat) : CompactCell :=
  if cp ≠ 0 then setWidth (setCharCleared c cp) (max (f.uwidth cp) 1).toNat
  else setWidth (setCharCleared c cp) 1

/-- CompactCell::writeTextOnly: set the width, replace the primary, clear the
continuation. -/
def writeTextOnly (c : CompactCell) (ch w : Nat) : CompactCell :=
  { setWidth c w with
    codepoint_ := ch,
    extra_ := (setWidth c w).extra_.map fun e => { e with codepoints := [] } }

/-- The width-setting and text-replacing part of CompactCell::write: set
width, replace primary, clear continuation and image. -/
def writeCleared (c : CompactCell) (ch w : Nat) : CompactCell :=
  { setWidth c w with
    codepoint_ := ch,
    extra_ := (setWidth c w).extra_.map fun e =>
      { e with codepoints := [], imageFragment := false } }

/-- CompactCell::write(attrs, ch, width): set width, replace primary, clear
continuation and image, then allocate the extra block when the attributes are
non-default (flags or underline color) or it already exists. -/
def writeCell (c : CompactCell) (ch w : Nat) (attrsNonDefault : Bool) : CompactCell :=
  if attrsNonDefault = true ∨ (writeCleared c ch w).extra_.isSome = true then
    ensureExtra (writeCleared c ch w)
  else writeCleared c ch w

/-- The cell mutators of the source, abstracted over the attribute-dependent
allocation decisions (booleans) and the external width computations. -/
inductive CellOp where
  | reset
  | resetAttrs (alloc : Bool)
  | write (ch w : Nat) (alloc : Bool)
  | writeText (ch w : Nat)
  | setChar (cp : Nat)
  | setW (w : Nat)
  | append (cp : Nat)
  | sgr (alloc : Bool)

/-- Apply one cell operation. -/
def applyOp (f : WidthFns) (c : CompactCell) : CellOp → CompactCell
  | CellOp.reset => initCell
  | CellOp.resetAttrs a => if a then ensureExtra initCell else initCell
  | CellOp.write ch w a => writeCell c ch w a
  | CellOp.writeText ch w => writeTextOnly c ch w
  | CellOp.setChar cp => setCharacter f c cp
  | CellOp.setW w => setWidth c w
  | CellOp.append cp => (appendCharacter f c cp).1
  | CellOp.sgr a => if a then ensureExtra c else c

/-- Apply a sequence of cell operations to a cell. -/
def applyOps (f : WidthFns) (c : CompactCell) (ops : List CellOp) : CompactCell :=
  ops.foldl (applyOp f) c

/-- Continuation length of a cell (0 when the extra block is absent). -/
def contLen (c : CompactCell) : Nat :=
  match c.extra_ with
  | none => 0
  | some e => e.codepoints.length

/-- Continuation codepoints of a cell. -/
def contList (c : CompactCell) : List Nat :=
  match c.extra_ with
  | none => []
  | some e => e.codepoints

/-! ### Order lemmas for the lexicographic coordinate order -/

lemma coordLe_refl (a : Coord) : coordLe a a := by
  unfold coordLe; omega

lemma coordLe_trans {a b c : Coord} (h1 : coordLe a b) (h2 : coordLe b c) :
    coordLe a c := by
  unfold coordLe at *; omega

lemma coordLt_le {a b : Coord} (h : coordLt a b) : coordLe a b := by
  unfold coordLt at h; unfold coordLe; omega

lemma not_coordLt_le {a b : Coord} (h : ¬ coordLt a b) : coordLe b a := by
  unfold coordLt at h; unfold coordLe; omega

lemma coordLe_not_lt {a b : Coord} (h : coordLe a b) : ¬ coordLt b a := by
  unfold coordLe at h; unfold coordLt; omega

lemma coord_eq_of_le_le {a b : Coord} (h1 : coordLe a b) (h2 : coordLe b a) :
    a = b := by
  obtain ⟨al, ac⟩ := a
  obtain ⟨bl, bc⟩ := b
  unfold coordLe at h1 h2
  simp only [Coord.mk.injEq]
  simp only at h1 h2
  omega

/-! ### Monotonicity of stretchedColumn and of the word scans -/

lemma stretchLoop_ge (env : Env) :
    ∀ (fuel : Nat) (l col : Int), col ≤ stretchLoop env fuel l col := by
  intro fuel
  induction fuel with
  | zero => intro l col; simp [stretchLoop]
  | succ n ih =>
    intro l col
    simp only [stretchLoop]
    split
    · split
      · split
        · exact le_trans (by omega) (ih l (col + 1))
        · split
          · rename_i cell _ _ hw
            omega
          · exact le_refl col
      · exact le_refl col
    · exact le_refl col

lemma stretched_line (env : Env) (c : Coord) :
    (stretchedColumn env c).line = c.line := by
  unfold stretchedColumn
  split
  · split <;> rfl
  · rfl

lemma stretched_col_ge (env : Env) (c : Coord) :
    c.column ≤ (stretchedColumn env c).column := by
  unfold stretchedColumn
  split
  · split
    · rename_i cell _ hw
      simp only
      omega
    · exact stretchLoop_ge env _ c.line c.column
  · exact stretchLoop_ge env _ c.line c.column

lemma stretched_ge (env : Env) (c : Coord) : coordLe c (stretchedColumn env c) :=
  Or.inr ⟨(stretched_line env c).symm, stretched_col_ge env c⟩

lemma fwdCross_ge (env : Env) (c : Coord) : coordLe c (fwdCross env c) := by
  unfold fwdCross
  split
  · refine Or.inl ?_
    rw [stretched_line]
    show c.line < c.line + 1
    omega
  · exact coordLe_refl c

lemma fwdStep_ge (env : Env) (c c2 : Coord) (h : fwdStep env c = some c2) :
    coordLe c c2 := by
  have h1 := fwdCross_ge env c
  unfold fwdStep at h
  split at h
  · cases h
    refine coordLe_trans h1 (coordLe_trans ?_
      (stretched_ge env ⟨(fwdCross env c).line, (fwdCross env c).column + 1⟩))
    refine Or.inr ⟨rfl, ?_⟩
    show (fwdCross env c).column ≤ (fwdCross env c).column + 1
    omega
  · split at h
    · cases h
      refine coordLe_trans h1 (Or.inl ?_)
      show (fwdCross env c).line < (fwdCross env c).line + 1
      omega
    · cases h

lemma backStep_le (env : Env) (c c2 : Coord) (h : backStep env c = some c2) :
    coordLe c2 c := by
  unfold backStep at h
  split at h
  · cases h
    refine Or.inr ⟨rfl, ?_⟩
    show c.column - 1 ≤ c.column
    omega
  · split at h
    · cases h
      refine Or.inl ?_
      show c.line - 1 < c.line
      omega
    · cases h

lemma fwdGo_ge (env : Env) :
    ∀ (fuel : Nat) (cur last : Coord), coordLe last cur →
      coordLe last (fwdGo env fuel cur last) := by
  intro fuel
  induction fuel with
  | zero => intro cur last _; exact coordLe_refl last
  | succ n ih =>
    intro cur last h
    simp only [fwdGo]
    split
    · exact coordLe_refl last
    · rename_i c2 hstep
      split
      · exact coordLe_refl last
      · exact coordLe_trans (coordLe_trans h (fwdStep_ge env cur c2 hstep))
          (ih c2 c2 (coordLe_refl c2))

lemma backGo_le (env : Env) :
    ∀ (fuel : Nat) (cur last : Coord), coordLe cur last →
      coordLe (backGo env fuel cur last) last := by
  intro fuel
  induction fuel with
  | zero => intro cur last _; exact coordLe_refl last
  | succ n ih =>
    intro cur last h
    simp only [backGo]
    split
    · exact coordLe_refl last
    · rename_i c2 hstep
      split
      · exact coordLe_refl last
      · exact coordLe_trans (ih c2 c2 (coordLe_refl c2))
          (coordLe_trans (backStep_le env cur c2 hstep) h)

/-! ### Field bookkeeping for the selector operations -/

lemma esf_from (env : Env) (t : Selector) :
    (extendSelectionForward env t).from_ = t.from_ := rfl

lemma esf_start (env : Env) (t : Selector) :
    (extendSelectionForward env t).start_ = t.start_ := rfl

lemma esf_mode (env : Env) (t : Selector) :
    (extendSelectionForward env t).mode_ = t.mode_ := rfl

lemma esf_to_ge (env : Env) (t : Selector) :
    coordLe t.to_ (extendSelectionForward env t).to_ := by
  unfold extendSelectionForward
  exact coordLe_trans
    (fwdGo_ge env (fwdFuel env t.to_) t.to_ t.to_ (coordLe_refl t.to_))
    (stretched_ge env _)

lemma esb_to (env : Env) (t : Selector) :
    (extendSelectionBackward env t).to_ =
      backGo env (backFuel env t.to_) t.to_ t.to_ := by
  unfold extendSelectionBackward
  split <;> rfl

lemma esb_mode (env : Env) (t : Selector) :
    (extendSelectionBackward env t).mode_ = t.mode_ := by
  unfold extendSelectionBackward
  split <;> rfl

lemma esb_start (env : Env) (t : Selector) :
    (extendSelectionBackward env t).start_ = t.start_ := by
  unfold extendSelectionBackward
  split <;> rfl

lemma stopSel_mode (s : Selector) : (stopSel s).mode_ = s.mode_ := by
  unfold stopSel; split <;> rfl

lemma stopSel_from (s : Selector) : (stopSel s).from_ = s.from_ := by
  unfold stopSel; split <;> rfl

lemma stopSel_to (s : Selector) : (stopSel s).to_ = s.to_ := by
  unfold stopSel; split <;> rfl

lemma stopSel_start (s : Selector) : (stopSel s).start_ = s.start_ := by
  unfold stopSel; split <;> rfl

lemma extend_mode (env : Env) (s : Selector) (l c : Int) :
    (extend env s l c).mode_ = s.mode_ := by
  obtain ⟨m, st, a, f, t⟩ := s
  cases m <;> simp only [extend] <;>
    (repeat' split) <;>
    simp [esf_mode, esb_mode, swapDirection]

lemma extend_start (env : Env) (s : Selector) (l c : Int) :
    (extend env s l c).start_ = s.start_ := by
  obtain ⟨m, st, a, f, t⟩ := s
  cases m <;> simp only [extend] <;>
    (repeat' split) <;>
    simp [esf_start, esb_start, swapDirection, extendSelectionBackward,
      extendSelectionForward] <;>
    (repeat' split) <;> rfl

lemma swap_mode (t : Selector) : (swapDirection t).mode_ = t.mode_ := rfl

lemma swap_start (t : Selector) : (swapDirection t).start_ = t.start_ := rfl

lemma constructSel_mode (env : Env) (m : Mode) (a : Coord) :
    (constructSel env m a).mode_ = m := by
  cases m
  case Linear => rfl
  case LinearWordWise =>
    simp only [constructSel]
    rw [esf_mode, swap_mode, esb_mode]
  case FullLine =>
    simp only [constructSel]
    rw [extend_mode, swap_mode, extend_mode]
  case Rectangular => rfl

/-! ### The Rectangular extension invariant: from_ stays at or before start_
and at or before to_ (lexicographically) under every legal call sequence -/

lemma extend_rect (env : Env) (s : Selector) (l c : Int)
    (hm : s.mode_ = Mode.Rectangular)
    (h1 : coordLe s.from_ s.start_) :
    coordLe (extend env s l c).from_ (extend env s l c).start_ ∧
    coordLe (extend env s l c).from_ (extend env s l c).to_ := by
  obtain ⟨m, st, a, f, t⟩ := s
  simp only at hm h1
  subst hm
  simp only [extend]
  split
  case isTrue hlt =>
    exact ⟨h1, coordLe_trans h1 (coordLe_trans (coordLt_le hlt) (esf_to_ge env _))⟩
  case isFalse hlt =>
    have hca := not_coordLt_le hlt
    have hb : coordLe
        (backGo env (backFuel env ⟨l, max 0 (min c env.columnCount)⟩)
          ⟨l, max 0 (min c env.columnCount)⟩ ⟨l, max 0 (min c env.columnCount)⟩)
        (⟨l, max 0 (min c env.columnCount)⟩ : Coord) :=
      backGo_le env _ _ _ (coordLe_refl _)
    simp only [extendSelectionBackward]
    split
    all_goals
      simp only [swapDirection, extendSelectionForward]
      refine ⟨coordLe_trans hb hca, ?_⟩
      refine coordLe_trans (coordLe_trans hb hca) ?_
      exact coordLe_trans (fwdGo_ge env _ a a (coordLe_refl a)) (stretched_ge env _)

lemma reached_rect_le (env : Env) (s : Selector) (hr : Reached env s) :
    s.mode_ = Mode.Rectangular →
    coordLe s.from_ s.start_ ∧ coordLe s.from_ s.to_ := by
  induction hr with
  | ctor mode anchor =>
    intro hm
    rw [constructSel_mode] at hm
    subst hm
    exact ⟨coordLe_refl _, coordLe_refl _⟩
  | extendStep s l c hs hne ih =>
    intro hm
    rw [extend_mode] at hm
    exact extend_rect env s l c hm (ih hm).1
  | stopStep s hs ih =>
    intro hm
    rw [stopSel_mode] at hm
    rw [stopSel_from, stopSel_start, stopSel_to]
    exact ih hm

/-! ### Containment of the projected ranges -/

lemma sortedPair_fst_le_snd (s : Selector) :
    coordLe (sortedPair s).1 (sortedPair s).2 := by
  unfold sortedPair
  split
  case isTrue h => exact coordLt_le h
  case isFalse h => exact not_coordLt_le h

lemma linearRangesP_between (env : Env) (f t : Coord) (hle : coordLe f t)
    (r : Range) (hr : r ∈ linearRangesP env f t) (col : Int)
    (hc1 : r.fromColumn ≤ col) (hc2 : col ≤ r.toColumn) :
    coordLe f ⟨r.line, col⟩ ∧ coordLe ⟨r.line, col⟩ t := by
  unfold coordLe at hle
  simp only [linearRangesP] at hr
  split at hr
  case isTrue h1 =>
    rw [List.mem_singleton] at hr
    subst hr
    refine ⟨?_, ?_⟩ <;> (unfold coordLe; dsimp only at hc1 hc2 ⊢; omega)
  case isFalse h1 =>
    split at hr
    case isTrue h2 =>
      rw [List.mem_cons, List.mem_singleton] at hr
      rcases hr with rfl | rfl <;>
        refine ⟨?_, ?_⟩ <;> (unfold coordLe; dsimp only at hc1 hc2 ⊢; omega)
    case isFalse h2 =>
      simp only [List.mem_cons, List.mem_append, List.mem_map, List.mem_range,
        List.mem_singleton, List.not_mem_nil, or_false] at hr
      rcases hr with (rfl | ⟨i, hi, rfl⟩) | rfl <;>
        refine ⟨?_, ?_⟩ <;> (unfold coordLe; dsimp only at hc1 hc2 ⊢; omega)

lemma linesRangesP_between (env : Env) (f t : Coord) (hle : coordLe f t)
    (r : Range) (hr : r ∈ linesRangesP env f t) :
    f.line ≤ r.line ∧ r.line ≤ t.line := by
  unfold coordLe at hle
  unfold linesRangesP at hr
  rw [List.mem_map] at hr
  obtain ⟨i, hi, rfl⟩ := hr
  rw [List.mem_range] at hi
  dsimp only
  omega

lemma rectRangesP_between (f t : Coord) (hle : coordLe f t)
    (r : Range) (hr : r ∈ rectRangesP f t) :
    (f.line ≤ r.line ∧ r.line ≤ t.line)
      ∧ r.fromColumn = f.column ∧ r.toColumn = t.column := by
  unfold coordLe at hle
  unfold rectRangesP at hr
  rw [List.mem_map] at hr
  obtain ⟨i, hi, rfl⟩ := hr
  rw [List.mem_range] at hi
  refine ⟨?_, rfl, rfl⟩
  dsimp only
  omega

lemma between_contains_linear (s : Selector) (c : Coord)
    (hm : s.mode_ = Mode.Linear ∨ s.mode_ = Mode.LinearWordWise)
    (h1 : coordLe (sortedPair s).1 c) (h2 : coordLe c (sortedPair s).2) :
    containsSel s c = true := by
  have key : (decide (ascendingC s.from_ c s.to_)
      || decide (ascendingC s.to_ c s.from_)) = true := by
    by_cases hlt : coordLt s.to_ s.from_
    · rw [sortedPair, if_pos hlt] at h1 h2
      simp only [Bool.or_eq_true, decide_eq_true_eq]
      exact Or.inr ⟨h1, h2⟩
    · rw [sortedPair, if_neg hlt] at h1 h2
      simp only [Bool.or_eq_true, decide_eq_true_eq]
      exact Or.inl ⟨h1, h2⟩
  unfold containsSel
  rcases hm with hm | hm <;> rw [hm] <;> exact key

/-- C4: for every selection reachable through the public API whose state is
Complete, in every mode, every coordinate emitted by selection() — each
range's line paired with each column from the range's fromColumn through its
toColumn — satisfies contains(coordinate) == true. -/
theorem c4_selection_contains (env : Env) (s : Selector) (hr : Reached env s)
    (hC : s.state_ = State.Complete) (r : Range) (hmem : r ∈ selectionFn env s)
    (col : Int) (h1 : r.fromColumn ≤ col) (h2 : col ≤ r.toColumn) :
    containsSel s ⟨r.line, col⟩ = true := by
  have hle := sortedPair_fst_le_snd s
  cases hm : s.mode_ with
  | Linear =>
    simp only [selectionFn, hm] at hmem
    unfold linearRanges at hmem
    have hb := linearRangesP_between env _ _ hle r hmem col h1 h2
    exact between_contains_linear s _ (Or.inl hm) hb.1 hb.2
  | LinearWordWise =>
    simp only [selectionFn, hm] at hmem
    unfold linearRanges at hmem
    have hb := linearRangesP_between env _ _ hle r hmem col h1 h2
    exact between_contains_linear s _ (Or.inr hm) hb.1 hb.2
  | FullLine =>
    simp only [selectionFn, hm] at hmem
    unfold linesRanges at hmem
    have hb := linesRangesP_between env _ _ hle r hmem
    unfold containsSel
    rw [hm]
    simp only [Bool.or_eq_true, decide_eq_true_eq]
    unfold ascendingI
    by_cases hlt : coordLt s.to_ s.from_
    · rw [sortedPair, if_pos hlt] at hb
      exact Or.inr ⟨hb.1, hb.2⟩
    · rw [sortedPair, if_neg hlt] at hb
      exact Or.inl ⟨hb.1, hb.2⟩
  | Rectangular =>
    have hinv := (reached_rect_le env s hr hm).2
    have hsp : sortedPair s = (s.from_, s.to_) := by
      unfold sortedPair
      rw [if_neg (coordLe_not_lt hinv)]
    simp only [selectionFn, hm] at hmem
    unfold rectRanges at hmem
    rw [hsp] at hmem
    have hb := rectRangesP_between s.from_ s.to_ hinv r hmem
    unfold containsSel
    rw [hm]
    simp only [Bool.and_eq_true, decide_eq_true_eq]
    unfold ascendingI
    refine ⟨⟨hb.1.1, hb.1.2⟩, ?_, ?_⟩
    · show s.from_.column ≤ col
      rw [← hb.2.1]
      exact h1
    · show col ≤ s.to_.column
      rw [← hb.2.2]
      exact h2

/-- Witness for C4: a concrete reachable Complete Linear selection on the
1 x 2 empty grid; the emitted coordinate (0,1) of range (0, 0..2) satisfies
contains. -/
theorem c4_witness :
    containsSel (stopSel (extend env1 (constructSel env1 Mode.Linear ⟨0, 0⟩) 0 0))
      ⟨0, 1⟩ = true :=
  c4_selection_contains env1 _
    (Reached.stopStep _
      (Reached.extendStep _ 0 0 (Reached.ctor Mode.Linear ⟨0, 0⟩) (by decide)))
    (by decide) ⟨0, 0, 2⟩ (by decide) 1 (by decide) (by decide)

/-- C1 counterexample: on the scenario S4 grid (3 x 11, word delimiter
comma), the Rectangular selection anchored at (0,2), extended to (2,5) and
stopped does NOT yield the ranges (0,2..5), (1,2..5), (2,2..5): because
Rectangular shares the word-wise extension path, to_ is pushed to (2,10). -/
theorem c1_counterexample :
    selectionFn s4env s4sel = [⟨0, 2, 10⟩, ⟨1, 2, 10⟩, ⟨2, 2, 10⟩] ∧
      selectionFn s4env s4sel ≠ [⟨0, 2, 5⟩, ⟨1, 2, 5⟩, ⟨2, 2, 5⟩] := by
  constructor <;> decide

/-- C1 amended: on the scenario S4 grid, Rectangular anchored at (0,2),
extended to (2,5) and stopped yields the ranges (0,2..10), (1,2..10),
(2,2..10) — the extension runs the shared word-wise forward scan to the end
of the run — and rendering emits the rows "345,67890", ",cdefg,hi",
"345,67890". -/
theorem c1_amended :
    selectionFn s4env s4sel = [⟨0, 2, 10⟩, ⟨1, 2, 10⟩, ⟨2, 2, 10⟩] ∧
      renderText s4env s4sel = strCodes "345,67890\n,cdefg,hi\n345,67890" := by
  constructor <;> decide

/-- C2, code behaviour at the failing input: on a grid where NO line is
wrapped, the backward word-walk step standing at (1,1) — the start of line 1
in this code's 1-based walk convention — still crosses into the previous
line at column = columnCount, because the branch guard
`*current.line > 0 || wrapIntoPreviousLine` is already true whenever
line > 0, making the wrapped-flag conjunct dead. -/
theorem c2_backstep_crosses_unwrapped :
    backStep c2env ⟨1, 1⟩ = some ⟨0, 4⟩ ∧ c2env.wrapped 1 = false := by
  constructor <;> rfl

/-- C3: calling extend on a Complete selection violates the precondition
assert and the operation aborts before any mutation: the selector object —
its from_, to_, state_, and the ranges selection() returns — is unchanged. -/
theorem c3_extend_after_complete (env : Env) (s : Selector) (l c : Int)
    (h : s.state_ = State.Complete) :
    extendChecked env s l c = none ∧ extendOp env s l c = s ∧
      selectionFn env (extendOp env s l c) = selectionFn env s := by
  have h1 : extendChecked env s l c = none := by
    unfold extendChecked
    rw [if_pos h]
  have h2 : extendOp env s l c = s := by
    unfold extendOp
    rw [h1]
    rfl
  exact ⟨h1, h2, by rw [h2]⟩

/-- Witness for C3: a concrete Complete Linear selection on the 1 x 2 empty
grid; the subsequent extend call aborts and leaves it intact. -/
theorem c3_witness :
    extendChecked env1 (stopSel (extend env1 (constructSel env1 Mode.Linear ⟨0, 0⟩) 0 0))
        0 1 = none ∧
      extendOp env1 (stopSel (extend env1 (constructSel env1 Mode.Linear ⟨0, 0⟩) 0 0)) 0 1
        = stopSel (extend env1 (constructSel env1 Mode.Linear ⟨0, 0⟩) 0 0) ∧
      selectionFn env1
          (extendOp env1 (stopSel (extend env1 (constructSel env1 Mode.Linear ⟨0, 0⟩) 0 0)) 0 1)
        = selectionFn env1 (stopSel (extend env1 (constructSel env1 Mode.Linear ⟨0, 0⟩) 0 0)) :=
  c3_extend_after_complete env1 _ 0 1 (by decide)

/-- C6 counterexample: a reachable Rectangular selection on `c6env` holds
from_ = (0,5) and to_ = (2,2); the coordinate (1,3) lies inside the
element-wise min/max box of from_ and to_, yet contains returns false,
because the source tests the column interval in one direction only. -/
theorem c6_counterexample :
    c6sel.mode_ = Mode.Rectangular ∧
      c6sel.from_ = ⟨0, 5⟩ ∧ c6sel.to_ = ⟨2, 2⟩ ∧
      containsSel c6sel ⟨1, 3⟩ = false ∧
      (min c6sel.from_.line c6sel.to_.line ≤ (1 : Int)
        ∧ (1 : Int) ≤ max c6sel.from_.line c6sel.to_.line
        ∧ min c6sel.from_.column c6sel.to_.column ≤ (3 : Int)
        ∧ (3 : Int) ≤ max c6sel.from_.column c6sel.to_.column) := by
  refine ⟨?_, ?_, ?_, ?_, ?_⟩ <;> decide

/-- C6 amended: for a Rectangular selection, contains(coord) is true exactly
when from_.line <= coord.line <= to_.line AND
from_.column <= coord.column <= to_.column — the raw from_/to_ in that one
direction, not the element-wise minima and maxima. -/
theorem c6_rect_contains_amended (s : Selector) (c : Coord)
    (hm : s.mode_ = Mode.Rectangular) :
    containsSel s c = true ↔
      (s.from_.line ≤ c.line ∧ c.line ≤ s.to_.line ∧
        s.from_.column ≤ c.column ∧ c.column ≤ s.to_.column) := by
  unfold containsSel
  rw [hm]
  simp only [Bool.and_eq_true, decide_eq_true_eq]
  unfold ascendingI
  tauto

/-- Witness for C6 amended: the characterisation applied to a concrete
Rectangular selector and coordinate. -/
theorem c6_witness :
    containsSel (extend c6env (constructSel c6env Mode.Rectangular ⟨0, 1⟩) 2 2) ⟨1, 2⟩ = true ↔
      ((extend c6env (constructSel c6env Mode.Rectangular ⟨0, 1⟩) 2 2).from_.line ≤ (1 : Int) ∧
        (1 : Int) ≤ (extend c6env (constructSel c6env Mode.Rectangular ⟨0, 1⟩) 2 2).to_.line ∧
        (extend c6env (constructSel c6env Mode.Rectangular ⟨0, 1⟩) 2 2).from_.column ≤ (2 : Int) ∧
        (2 : Int) ≤ (extend c6env (constructSel c6env Mode.Rectangular ⟨0, 1⟩) 2 2).to_.column) :=
  c6_rect_contains_amended _ ⟨1, 2⟩ (by decide)

/-- C7 counterexample: a cell written with a width-2 character owns an extra
block with an empty continuation; codepoint(1) then indexes
codepoints.at(0), which is out of range — the call fails (none) instead of
returning 0. -/
theorem c7_counterexample :
    codepoint (writeCell initCell 12354 2 false) 1 = none ∧
      codepoint (writeCell initCell 12354 2 false) 1 ≠ some 0 := by
  constructor <;> decide

/-- C7 amended: codepoint(i) returns the primary codepoint when i = 0 and
the continuation codepoint at position i-1 when that position exists; it
returns 0 for i >= 1 only when the cell has NO extra block; when an extra
block exists and i-1 is not a valid continuation index, the call fails
(assertion in debug builds, undefined in release) rather than returning 0. -/
theorem c7_codepoint_amended (c : CompactCell) (i : Nat) :
    (i = 0 → codepoint c i = some c.codepoint_) ∧
    (0 < i → c.extra_ = none → codepoint c i = some 0) ∧
    (∀ (e : CellExtra) (he : c.extra_ = some e) (hi : 0 < i)
        (hlen : i - 1 < e.codepoints.length),
      codepoint c i = some (e.codepoints.get ⟨i - 1, hlen⟩)) ∧
    (∀ (e : CellExtra), c.extra_ = some e → 0 < i →
      ¬ (i - 1 < e.codepoints.length) → codepoint c i = none) := by
  refine ⟨?_, ?_, ?_, ?_⟩
  · intro h
    subst h
    rfl
  · intro hi he
    unfold codepoint
    rw [if_neg (by omega), he]
  · intro e he hi hlen
    unfold codepoint
    rw [if_neg (by omega), he]
    dsimp only
    rw [dif_pos hlen]
  · intro e he hi hlen
    unfold codepoint
    rw [if_neg (by omega), he]
    dsimp only
    rw [dif_neg hlen]

/-- Witness for C7 amended: on the zero cell (no extra block), codepoint(3)
returns 0. -/
theorem c7_witness : codepoint initCell 3 = some 0 :=
  (c7_codepoint_amended initCell 3).2.1 (by omega) rfl

/-- The constructor's forward wrap walk absorbs extend's forward wrap walk:
walking with the `to.line + 1 < totalRowCount` guard first and then with the
`to.line < totalRowCount` guard lands where the latter walk alone lands. -/
lemma ctorFwdGo_comp (env : Env) :
    ∀ (n : Nat) (l : Int),
      ctorFwdGo env ((env.totalRowCount - extFwdGo env n l).toNat + 1) (extFwdGo env n l)
        = ctorFwdGo env ((env.totalRowCount - l).toNat + 1) l := by
  intro n
  induction n with
  | zero => intro l; rfl
  | succ k ih =>
    intro l
    by_cases h : l + 1 < env.totalRowCount ∧ env.wrapped (l + 1) = true
    · obtain ⟨hl, hw⟩ := h
      rw [show extFwdGo env (k + 1) l = extFwdGo env k (l + 1) from by
        simp only [extFwdGo]
        rw [if_pos ⟨hl, hw⟩]]
      rw [ih (l + 1)]
      rw [show ctorFwdGo env ((env.totalRowCount - l).toNat + 1) l
          = ctorFwdGo env ((env.totalRowCount - l).toNat) (l + 1) from by
        conv_lhs => rw [ctorFwdGo]
        rw [if_pos ⟨by omega, hw⟩]]
      rw [show (env.totalRowCount - l).toNat = (env.totalRowCount - (l + 1)).toNat + 1 from by
        omega]
    · rw [show extFwdGo env (k + 1) l = l from by
        simp only [extFwdGo]
        rw [if_neg h]]

/-- C5 counterexample: grid with 3 rows, 5 columns, lines 2 and 3 flagged
wrapped.  FullLine construction at anchor (1,2) yields from_ = (1,2) — the
anchor column is NOT zeroed — and to_ = (3,5): the constructor's forward
walk guard `to.line < totalRowCount` lets the walk query the wrapped flag of
line totalRowCount and step to line 3, where the claimed guard
`to.line + 1 < totalRowCount` would stop at line 2. -/
theorem c5_counterexample :
    (constructSel c5env Mode.FullLine ⟨1, 2⟩).from_ = ⟨1, 2⟩ ∧
      (constructSel c5env Mode.FullLine ⟨1, 2⟩).to_ = ⟨3, 5⟩ ∧
      (constructSel c5env Mode.FullLine ⟨1, 2⟩).from_ ≠ ⟨1, 0⟩ ∧
      (constructSel c5env Mode.FullLine ⟨1, 2⟩).to_.line ≠ 2 := by
  refine ⟨?_, ?_, ?_, ?_⟩ <;> decide

/-- C5 amended: immediately after constructing a FullLine selection with
anchor (L, C), 0 < C < columnCount, from_ equals (L1, C) — the anchor column
is preserved, not snapped to 0 — where L1 is reached from L by walking
backward while the line offset is positive and the current line is wrapped;
and to_ equals (L2, columnCount), where L2 is reached from L by walking
forward while to.line < totalLineCount (not to.line + 1 < totalLineCount)
and line to.line + 1 is wrapped. -/
theorem c5_fullline_ctor_amended (env : Env) (a : Coord)
    (h0 : 0 < a.column) (h1 : a.column < env.columnCount) :
    (constructSel env Mode.FullLine a).from_ =
      ⟨bwdLineGo env (a.line.toNat + 1) a.line, a.column⟩ ∧
    (constructSel env Mode.FullLine a).to_ =
      ⟨ctorFwdGo env ((env.totalRowCount - a.line).toNat + 1) a.line,
        env.columnCount⟩ := by
  obtain ⟨al, ac⟩ := a
  dsimp only at h0 h1 ⊢
  have hnlt1 : ¬ coordLt (⟨al, ac⟩ : Coord) ⟨al, max 0 (min 0 env.columnCount)⟩ := by
    unfold coordLt
    dsimp only
    omega
  have hlt1 : coordLt (⟨al, max 0 (min 0 env.columnCount)⟩ : Coord) ⟨al, ac⟩ := by
    unfold coordLt
    dsimp only
    omega
  have hlt2 : coordLt (⟨al, ac⟩ : Coord) ⟨al, max 0 (min env.columnCount env.columnCount)⟩ := by
    unfold coordLt
    dsimp only
    omega
  have hcC : max 0 (min env.columnCount env.columnCount) = env.columnCount := by omega
  have e1 : extend env ⟨Mode.FullLine, State.Waiting, ⟨al, ac⟩, ⟨al, ac⟩, ⟨al, ac⟩⟩ al 0
      = ⟨Mode.FullLine, State.InProgress, ⟨al, ac⟩,
          ⟨bwdLineGo env (al.toNat + 1) al, max 0 (min 0 env.columnCount)⟩, ⟨al, ac⟩⟩ := by
    simp only [extend]
    rw [if_neg hnlt1, if_pos hlt1]
  have e3 : ∀ (f2 t2 : Coord),
      extend env ⟨Mode.FullLine, State.InProgress, ⟨al, ac⟩, ⟨al, ac⟩, t2⟩ al env.columnCount
        = ⟨Mode.FullLine, State.InProgress, ⟨al, ac⟩, ⟨al, ac⟩,
            ⟨extFwdGo env ((env.totalRowCount - al).toNat + 1) al,
              max 0 (min env.columnCount env.columnCount)⟩⟩ := by
    intro f2 t2
    simp only [extend]
    rw [if_pos hlt2]
  show ((constructSel env Mode.FullLine ⟨al, ac⟩).from_ = _) ∧ _
  simp only [constructSel]
  rw [e1]
  simp only [swapDirection]
  rw [e3 ⟨al, ac⟩ ⟨bwdLineGo env (al.toNat + 1) al, max 0 (min 0 env.columnCount)⟩]
  constructor
  · rfl
  · show (⟨ctorFwdGo env
        ((env.totalRowCount - extFwdGo env ((env.totalRowCount - al).toNat + 1) al).toNat + 1)
        (extFwdGo env ((env.totalRowCount - al).toNat + 1) al),
      max 0 (min env.columnCount env.columnCount)⟩ : Coord) = _
    rw [ctorFwdGo_comp env ((env.totalRowCount - al).toNat + 1) al, hcC]

/-- Witness for C5 amended: the amended characterisation instantiated on the
`c5env` grid at anchor (1,2). -/
theorem c5_witness :
    (constructSel c5env Mode.FullLine ⟨1, 2⟩).from_ =
      ⟨bwdLineGo c5env ((1 : Int).toNat + 1) 1, 2⟩ ∧
    (constructSel c5env Mode.FullLine ⟨1, 2⟩).to_ =
      ⟨ctorFwdGo c5env ((c5env.totalRowCount - 1).toNat + 1) 1, c5env.columnCount⟩ :=
  c5_fullline_ctor_amended c5env ⟨1, 2⟩ (by decide) (by decide)

lemma contLen_ensureExtra (c : CompactCell) : contLen (ensureExtra c) = contLen c := by
  cases hc : c.extra_ <;> simp [ensureExtra, contLen, hc, defaultExtra]

lemma contList_ensureExtra (c : CompactCell) : contList (ensureExtra c) = contList c := by
  cases hc : c.extra_ <;> simp [ensureExtra, contList, hc, defaultExtra]

lemma getD_ensureExtra (c : CompactCell) :
    (ensureExtra c).extra_.getD defaultExtra = c.extra_.getD defaultExtra := by
  cases hc : c.extra_ <;> simp [ensureExtra, hc]

lemma contLen_getD (c : CompactCell) :
    contLen c = (c.extra_.getD defaultExtra).codepoints.length := by
  cases hc : c.extra_ <;> simp [contLen, hc, defaultExtra]

lemma contList_getD (c : CompactCell) :
    contList c = (c.extra_.getD defaultExtra).codepoints := by
  cases hc : c.extra_ <;> simp [contList, hc, defaultExtra]

lemma contLen_setWidth (c : CompactCell) (w : Nat) :
    contLen (setWidth c w) = contLen c := by
  unfold setWidth
  split
  · cases hc : c.extra_ <;> simp [contLen, hc, defaultExtra]
  · rfl

lemma contList_setWidth (c : CompactCell) (w : Nat) :
    contList (setWidth c w) = contList c := by
  unfold setWidth
  split
  · cases hc : c.extra_ <;> simp [contList, hc, defaultExtra]
  · rfl

lemma contLen_appendPushed (c : CompactCell) (cp : Nat) :
    contLen (appendPushed c cp) = contLen c + 1 := by
  rw [contLen_getD, contLen_getD]
  simp [appendPushed, getD_ensureExtra]

lemma contList_appendPushed (c : CompactCell) (cp : Nat) :
    contList (appendPushed c cp) = contList c ++ [cp] := by
  rw [contList_getD, contList_getD]
  simp [appendPushed, getD_ensureExtra]

lemma contLen_writeCleared (c : CompactCell) (ch w : Nat) :
    contLen (writeCleared c ch w) = 0 := by
  unfold writeCleared
  cases hc : (setWidth c w).extra_ <;> simp [contLen, hc]

lemma contLen_writeCell (c : CompactCell) (ch w : Nat) (alloc : Bool) :
    contLen (writeCell c ch w alloc) = 0 := by
  unfold writeCell
  split
  · rw [contLen_ensureExtra]
    exact contLen_writeCleared c ch w
  · exact contLen_writeCleared c ch w

lemma contLen_writeTextOnly (c : CompactCell) (ch w : Nat) :
    contLen (writeTextOnly c ch w) = 0 := by
  unfold writeTextOnly
  cases hc : (setWidth c w).extra_ <;> simp [contLen, hc]

lemma contLen_setCharCleared (c : CompactCell) (cp : Nat) :
    contLen (setCharCleared c cp) = 0 := by
  unfold setCharCleared
  cases hc : c.extra_ <;> simp [contLen, hc]

lemma contLen_setCharacter (f : WidthFns) (c : CompactCell) (cp : Nat) :
    contLen (setCharacter f c cp) = 0 := by
  unfold setCharacter
  split <;> rw [contLen_setWidth] <;> exact contLen_setCharCleared c cp

lemma contLen_appendCharacter_le (f : WidthFns) (c : CompactCell) (cp : Nat)
    (h : contLen c ≤ 6) : contLen (appendCharacter f c cp).1 ≤ 6 := by
  unfold appendCharacter
  split
  case isTrue hlen =>
    rw [getD_ensureExtra, ← contLen_getD] at hlen
    simp only [MaxCodepoints] at hlen
    split <;> dsimp only
    · rw [contLen_setWidth, contLen_appendPushed]
      omega
    · rw [contLen_appendPushed]
      omega
  case isFalse hlen =>
    dsimp only
    rw [contLen_ensureExtra]
    exact h

lemma contLen_applyOp_le (f : WidthFns) (c : CompactCell) (op : CellOp)
    (h : contLen c ≤ 6) : contLen (applyOp f c op) ≤ 6 := by
  cases op with
  | reset =>
    show contLen initCell ≤ 6
    decide
  | resetAttrs a =>
    cases a
    · show contLen initCell ≤ 6
      decide
    · show contLen (ensureExtra initCell) ≤ 6
      rw [contLen_ensureExtra]
      decide
  | write ch w a =>
    show contLen (writeCell c ch w a) ≤ 6
    rw [contLen_writeCell]
    omega
  | writeText ch w =>
    show contLen (writeTextOnly c ch w) ≤ 6
    rw [contLen_writeTextOnly]
    omega
  | setChar cp =>
    show contLen (setCharacter f c cp) ≤ 6
    rw [contLen_setCharacter]
    omega
  | setW w =>
    show contLen (setWidth c w) ≤ 6
    rw [contLen_setWidth]
    exact h
  | append cp => exact contLen_appendCharacter_le f c cp h
  | sgr a =>
    cases a
    · exact h
    · show contLen (ensureExtra c) ≤ 6
      rw [contLen_ensureExtra]
      exact h

lemma contLen_applyOps_le (f : WidthFns) :
    ∀ (ops : List CellOp) (c : CompactCell), contLen c ≤ 6 →
      contLen (applyOps f c ops) ≤ 6 := by
  intro ops
  induction ops with
  | nil => intro c h; exact h
  | cons op rest ih =>
    intro c h
    exact ih (applyOp f c op) (contLen_applyOp_le f c op h)

lemma codepointCount_le_of_contLen (c : CompactCell) (h : contLen c ≤ 6) :
    codepointCount c ≤ 7 := by
  unfold codepointCount
  split
  · cases hc : c.extra_ <;> simp [contLen, hc] at h ⊢ <;> omega
  · omega

/-- C8: codepointCount stays at most 7 through every sequence of cell
operations starting from the zero-initialised cell, and appendCharacter
appends the codepoint to the continuation exactly when fewer than
MaxCodepoints - 1 continuation codepoints are stored (so only while the
cluster size is below 7); it then returns the width change computed on the
pushed cell (0 when the width does not change), and returns 0 with the
continuation untouched when the append is refused.  The claim holds for
every choice of the two external width functions. -/
theorem c8_cluster_cap_and_append :
    (∀ (f : WidthFns) (ops : List CellOp),
      codepointCount (applyOps f initCell ops) ≤ 7) ∧
    (∀ (f : WidthFns) (c : CompactCell) (cp : Nat),
      (contLen c < MaxCodepoints - 1 →
        contList (appendCharacter f c cp).1 = contList c ++ [cp] ∧
          (appendCharacter f c cp).2 = f.computeWidthChange (appendPushed c cp) cp ∧
          codepointCount c < 7) ∧
      (¬ contLen c < MaxCodepoints - 1 →
        contList (appendCharacter f c cp).1 = contList c ∧
          (appendCharacter f c cp).2 = 0)) := by
  constructor
  · intro f ops
    exact codepointCount_le_of_contLen _
      (contLen_applyOps_le f ops initCell (by decide))
  · intro f c cp
    constructor
    · intro hlt
      have hlen : ((ensureExtra c).extra_.getD defaultExtra).codepoints.length
          < MaxCodepoints - 1 := by
        rw [getD_ensureExtra, ← contLen_getD]
        exact hlt
      refine ⟨?_, ?_, ?_⟩
      · unfold appendCharacter
        rw [if_pos hlen]
        split <;> dsimp only
        · rw [contList_setWidth, contList_appendPushed]
        · rw [contList_appendPushed]
      · unfold appendCharacter
        rw [if_pos hlen]
        split
        case isTrue hd => rfl
        case isFalse hd =>
          dsimp only
          simp only [not_not] at hd
          rw [hd]
      · unfold codepointCount
        split
        · have := hlt
          simp only [MaxCodepoints] at this
          cases hc : c.extra_ <;> simp [contLen, hc] at this ⊢ <;> omega
        · omega
    · intro hge
      have hlen : ¬ ((ensureExtra c).extra_.getD defaultExtra).codepoints.length
          < MaxCodepoints - 1 := by
        rw [getD_ensureExtra, ← contLen_getD]
        exact hge
      unfold appendCharacter
      rw [if_neg hlen]
      exact ⟨contList_ensureExtra c, rfl⟩

/-- A concrete choice of the external width functions for the witness. -/
def f0 : WidthFns := ⟨fun _ _ => 0, fun _ => 1⟩

/-- Witness for C8: the cap after a concrete operation sequence and a
concrete successful append. -/
theorem c8_witness :
    codepointCount (applyOps f0 initCell
        [CellOp.setChar 97, CellOp.append 98, CellOp.append 99]) ≤ 7 ∧
      contList (appendCharacter f0 initCell 97).1 = contList initCell ++ [97] :=
  ⟨c8_cluster_cap_and_append.1 f0 _,
    ((c8_cluster_cap_and_append.2 f0 initCell 97).1 (by decide)).1⟩

/-- prepare()'s normalisation is symmetric in (from_, to_): selectors whose
endpoints are swapped normalise to the same ordered pair. -/
lemma sortedPair_swap_eq (s1 s2 : Selector)
    (h1 : s1.from_ = s2.to_) (h2 : s1.to_ = s2.from_) :
    sortedPair s1 = sortedPair s2 := by
  unfold sortedPair
  rw [h1, h2]
  by_cases h : coordLt s2.from_ s2.to_
  · rw [if_pos h, if_neg (coordLe_not_lt (coordLt_le h))]
  · rw [if_neg h]
    by_cases h3 : coordLt s2.to_ s2.from_
    · rw [if_pos h3]
    · rw [if_neg h3]
      rw [coord_eq_of_le_le (not_coordLt_le h3) (not_coordLt_le h)]

/-- C9 counterexample: on the 2 x 3 grid `c9env` whose first row is empty,
Linear anchored at A = (0,1) extended to B = (1,0) gives ranges
(0,1..2),(1,0..0), while anchoring at B and extending to A gives
(0,3..2),(1,0..0) — stretchedColumn is applied only to the extended
endpoint, so the two selections differ even modulo order. -/
theorem c9_counterexample :
    selectionFn c9env c9selA = [⟨0, 1, 2⟩, ⟨1, 0, 0⟩] ∧
      selectionFn c9env c9selB = [⟨0, 3, 2⟩, ⟨1, 0, 0⟩] ∧
      ¬ List.Perm (selectionFn c9env c9selA) (selectionFn c9env c9selB) := by
  refine ⟨by decide, by decide, by decide⟩

/-- C9 amended: for Linear mode, constructing at anchor A, extending to B
and stopping yields the same ranges as constructing at B and extending to A,
provided both endpoints have in-range columns and are fixed points of
stretchedColumn (stretchedColumn is applied only to the extended endpoint,
so symmetry can fail when it moves one of them). -/
theorem c9_linear_symmetry_amended (env : Env) (A B : Coord)
    (hA0 : 0 ≤ A.column) (hA1 : A.column ≤ env.columnCount)
    (hB0 : 0 ≤ B.column) (hB1 : B.column ≤ env.columnCount)
    (hsA : stretchedColumn env A = A) (hsB : stretchedColumn env B = B) :
    selectionFn env (stopSel (extend env (constructSel env Mode.Linear A) B.line B.column))
      = selectionFn env (stopSel (extend env (constructSel env Mode.Linear B) A.line A.column)) := by
  have hclA : max 0 (min A.column env.columnCount) = A.column := by omega
  have hclB : max 0 (min B.column env.columnCount) = B.column := by omega
  have hEA : stopSel (extend env (constructSel env Mode.Linear A) B.line B.column)
      = ⟨Mode.Linear, State.Complete, A, A, B⟩ := by
    show stopSel (extend env ⟨Mode.Linear, State.Waiting, A, A, A⟩ B.line B.column) = _
    simp only [extend]
    rw [hclB]
    rw [show (⟨B.line, B.column⟩ : Coord) = B from rfl]
    rw [hsB]
    rfl
  have hEB : stopSel (extend env (constructSel env Mode.Linear B) A.line A.column)
      = ⟨Mode.Linear, State.Complete, B, B, A⟩ := by
    show stopSel (extend env ⟨Mode.Linear, State.Waiting, B, B, B⟩ A.line A.column) = _
    simp only [extend]
    rw [hclA]
    rw [show (⟨A.line, A.column⟩ : Coord) = A from rfl]
    rw [hsA]
    rfl
  rw [hEA, hEB]
  show linearRanges env ⟨Mode.Linear, State.Complete, A, A, B⟩
      = linearRanges env ⟨Mode.Linear, State.Complete, B, B, A⟩
  unfold linearRanges
  rw [sortedPair_swap_eq ⟨Mode.Linear, State.Complete, A, A, B⟩
    ⟨Mode.Linear, State.Complete, B, B, A⟩ rfl rfl]

/-- Witness for C9 amended: the symmetry instantiated on `c9env` with the
two non-empty width-1 cells (1,0) and (1,2), both stretchedColumn fixed
points. -/
theorem c9_witness :
    selectionFn c9env (stopSel (extend c9env (constructSel c9env Mode.Linear ⟨1, 0⟩) 1 2))
      = selectionFn c9env (stopSel (extend c9env (constructSel c9env Mode.Linear ⟨1, 2⟩) 1 0)) :=
  c9_linear_symmetry_amended c9env ⟨1, 0⟩ ⟨1, 2⟩ (by decide) (by decide) (by decide)
    (by decide) (by decide) (by decide)

/-- Under the data-model width invariant (widths at most 2; empty cells have
width at most 1), the stretch loop never passes columnCount. -/
lemma stretchLoop_ub (env : Env)
    (hwf : ∀ (p : Coord) (cell : SCell), env.getCellAt p = some cell →
      (cell.width ≤ 2 ∧ (cell.empty = true → cell.width ≤ 1))) :
    ∀ (fuel : Nat) (l col : Int), col ≤ env.columnCount →
      stretchLoop env fuel l col ≤ env.columnCount := by
  intro fuel
  induction fuel with
  | zero => intro l col h; simpa [stretchLoop] using h
  | succ n ih =>
    intro l col h
    simp only [stretchLoop]
    split
    case isTrue hc =>
      split
      case h_1 cell heq =>
        split
        case isTrue hemp => exact ih l (col + 1) (by omega)
        case isFalse hemp =>
          split
          case isTrue hw =>
            have := (hwf _ _ heq).1
            omega
          case isFalse hw => exact h
      case h_2 heq => exact h
    case isFalse hc => exact h

/-- When every cell from the current column to the row end exists, is empty
and has width at most 1, the stretch loop runs to columnCount exactly. -/
lemma stretchLoop_full (env : Env) (l : Int) :
    ∀ (fuel : Nat) (col : Int), (env.columnCount - col).toNat < fuel →
      col ≤ env.columnCount →
      (∀ (x : Int), col ≤ x → x < env.columnCount →
        ∃ cell, env.getCellAt ⟨l, x⟩ = some cell ∧ cell.empty = true) →
      stretchLoop env fuel l col = env.columnCount := by
  intro fuel
  induction fuel with
  | zero => intro col h; omega
  | succ n ih =>
    intro col hfuel hle hempty
    simp only [stretchLoop]
    by_cases hc : col < env.columnCount
    · rw [if_pos hc]
      obtain ⟨cell, hcell, hemp⟩ := hempty col (le_refl col) hc
      rw [hcell]
      dsimp only
      rw [if_pos hemp]
      exact ih (col + 1) (by omega) (by omega)
        (fun x hx1 hx2 => hempty x (by omega) hx2)
    · rw [if_neg hc]
      omega

/-- C10: for a coordinate with an in-range column, stretchedColumn stays on
the same line with a column in the closed interval [c.column, columnCount]
(under the data-model width invariant); when the cell at c and every cell to
its right on that line are empty, the returned column equals columnCount —
one past the last valid column index; and concretely, on the 1 x 2 empty
grid, a Linear extend leaves to_.column = columnCount and selection() emits
a range whose toColumn is columnCount = 2. -/
theorem c10_stretchedColumn (env : Env) (c : Coord)
    (hwf : ∀ (p : Coord) (cell : SCell), env.getCellAt p = some cell →
      (cell.width ≤ 2 ∧ (cell.empty = true → cell.width ≤ 1)))
    (h0 : 0 ≤ c.column) (h1 : c.column < env.columnCount) :
    ((stretchedColumn env c).line = c.line ∧
      c.column ≤ (stretchedColumn env c).column ∧
      (stretchedColumn env c).column ≤ env.columnCount) ∧
    ((∀ (x : Int), c.column ≤ x → x < env.columnCount →
        ∃ cell, env.getCellAt ⟨c.line, x⟩ = some cell ∧ cell.empty = true) →
      (stretchedColumn env c).column = env.columnCount) ∧
    ((stopSel (extend env1 (constructSel env1 Mode.Linear ⟨0, 0⟩) 0 0)).to_.column
        = env1.columnCount ∧
      selectionFn env1 (stopSel (extend env1 (constructSel env1 Mode.Linear ⟨0, 0⟩) 0 0))
        = [⟨0, 0, 2⟩]) := by
  refine ⟨⟨stretched_line env c, stretched_col_ge env c, ?_⟩, ?_, by decide, by decide⟩
  · unfold stretchedColumn
    split
    case h_1 cell heq =>
      split
      case isTrue hw =>
        have := (hwf _ _ heq).1
        dsimp only
        omega
      case isFalse hw =>
        dsimp only
        exact stretchLoop_ub env hwf _ c.line c.column (by omega)
    case h_2 heq =>
      dsimp only
      exact stretchLoop_ub env hwf _ c.line c.column (by omega)
  · intro hempty
    obtain ⟨cell, hcell, hemp⟩ := hempty c.column (le_refl c.column) h1
    unfold stretchedColumn
    rw [show env.getCellAt c = some cell from by
      rw [show c = (⟨c.line, c.column⟩ : Coord) from rfl]
      exact hcell]
    dsimp only
    rw [if_neg (by
      have := (hwf _ _ hcell).2 hemp
      omega)]
    dsimp only
    exact stretchLoop_full env c.line _ c.column (by omega) (by omega) hempty

/-- Witness for C10: the bounds instantiated on the 1 x 2 empty grid at
(0,0); the fully-empty row stretches to column 2 = columnCount. -/
theorem c10_witness :
    (stretchedColumn env1 ⟨0, 0⟩).line = 0 ∧
      (stretchedColumn env1 ⟨0, 0⟩).column = 2 := by
  have hwf : ∀ (p : Coord) (cell : SCell), env1.getCellAt p = some cell →
      (cell.width ≤ 2 ∧ (cell.empty = true → cell.width ≤ 1)) := by
    intro p cell hc
    unfold env1 at hc
    dsimp only at hc
    split at hc
    · cases hc
      exact ⟨by decide, fun _ => by decide⟩
    · exact Option.noConfusion hc
  have hempty : ∀ (x : Int), (0 : Int) ≤ x → x < env1.columnCount →
      ∃ cell, env1.getCellAt ⟨0, x⟩ = some cell ∧ cell.empty = true := by
    intro x hx1 hx2
    refine ⟨⟨0, 1, true⟩, ?_, rfl⟩
    unfold env1
    dsimp only
    rw [if_pos ⟨by omega, by omega, hx1, by
      show x < 2
      revert hx2
      unfold env1
      exact fun h => h⟩]
  have h := c10_stretchedColumn env1 ⟨0, 0⟩ hwf (by decide) (by decide)
  exact ⟨h.1.1, h.2.1 hempty⟩

end terminal
